import Mathlib

/-!
# tileed: tileset decoding, map store and fixed-timestep clock

A shallow embedding of the parts of `ed.cpp` (and the twin copies in
`ed_tile.cpp`) that decode the tileset asset, flip its raster order, store and
persist the 4-layer tile map, and drive the simulation clock.

Conventions of the embedding.

* A C `int` is an `Int` and its arithmetic is exact: a buffer the program
  holds has an `int` size (`ReadFile` returns it), so that the offsets into it
  fit an `int`. `atoi`, which meets numerals of any length, returns its `int`
  result. A `char` of a buffer is a natural number. An `unsigned int` of the
  clock is a natural number, and its arithmetic is reduced modulo `2^32`.
* A pointer into a buffer is the offset from its start; the buffer itself is
  the list of its bytes, so an object has exactly the bytes it was given.
* A run of a function ends in one of three ways, see `Result`: normally, in a
  call of `Error` (message printed, `exit(1)`), or by touching memory outside
  the object it was handed, which C leaves undefined.
-/

namespace Tileed

/-! ## Outcomes -/

/-- The calls of `Error` in the sources, by message. -/
inductive Fatal where
  /-- `Error("Failed to open file ...")` -/
  | openFile
  /-- `Error("Couldn't find key %s\n", key)` -/
  | noKey (key : List Nat)
  /-- `Error("Couldn't find data block")` -/
  | noData
  deriving DecidableEq, Repr

/-- How a run ends: `ok` with a value, `error` after a call of `Error`,
`undefined` when an access falls outside the object (undefined behaviour). -/
inductive Result (α : Type) where
  | ok (a : α)
  | error (e : Fatal)
  | undefined
  deriving DecidableEq, Repr

/-- Sequencing of runs: the first run that does not end with `ok` ends it all. -/
def Result.bind {α β : Type} (x : Result α) (f : α → Result β) : Result β :=
  match x with
  | .ok a => f a
  | .error e => .error e
  | .undefined => .undefined

instance : Monad Result where
  pure := Result.ok
  bind := Result.bind

/-! ## Raster flip (`FlipRasterOrder`) -/

/-- The read `mem[a]` of an array at an `int` index. -/
def load {α : Type} (mem : List α) : Int → Result α
  | Int.ofNat n =>
    match mem[n]? with
    | some b => .ok b
    | none => .undefined
  | Int.negSucc _ => .undefined

/-- The write `mem[a] = v` of an array at an `int` index. -/
def store {α : Type} (mem : List α) (a : Int) (v : α) : Result (List α) :=
  match a with
  | Int.ofNat n => if n < mem.length then .ok (mem.set n v) else .undefined
  | Int.negSucc _ => .undefined

/-- The loop `for (int j = 0; j < 4; j++)` of `FlipRasterOrder`, which swaps
the components of one pixel; the first argument counts the iterations left,
`4 - j`. -/
def swapComponents (addra addrb : Int) : Nat → Int → List Nat → Result (List Nat)
  | 0, _, pixels => .ok pixels
  | n + 1, j, pixels => do
    let temp ← load pixels (addra + j)
    let b ← load pixels (addrb + j)
    let pixels ← store pixels (addra + j) b
    let pixels ← store pixels (addrb + j) temp
    swapComponents addra addrb n (j + 1) pixels

/-- The loop `for (int i = 0; i < imagew; i++)` of `FlipRasterOrder`, which
swaps the two lines `start` and `end`; the first argument counts the
iterations left, `imagew - i`. -/
def swapLine (imagew start end_ : Int) : Nat → Int → List Nat → Result (List Nat)
  | 0, _, pixels => .ok pixels
  | n + 1, i, pixels => do
    let addra := (start * imagew + i) * 4
    let addrb := (end_ * imagew + i) * 4
    let pixels ← swapComponents addra addrb 4 0 pixels
    swapLine imagew start end_ n (i + 1) pixels

/-- The loop `while (start < end)` of `FlipRasterOrder`. The first argument
bounds the number of iterations; `FlipRasterOrder` passes `imageh`, which the
loop never uses up. -/
def flipLoop (imagew : Int) : Nat → Int → Int → List Nat → Result (List Nat)
  | 0, _, _, pixels => .ok pixels
  | fuel + 1, start, end_, pixels =>
    if start < end_ then do
      let pixels ← swapLine imagew start end_ imagew.toNat 0 pixels
      flipLoop imagew fuel (start + 1) (end_ - 1) pixels
    else .ok pixels

/-- `FlipRasterOrder(imagew, imageh, pixels)`: the buffer it leaves. -/
def FlipRasterOrder (imagew imageh : Int) (pixels : List Nat) : Result (List Nat) :=
  flipLoop imagew imageh.toNat 0 (imageh - 1) pixels

/-- The buffer `pixels` with the `n` bytes from `a` exchanged with the `n`
bytes from `b`, read at offset `k`. -/
def swapped (pixels : List Nat) (a b n k : Nat) : Option Nat :=
  if a ≤ k ∧ k < a + n then pixels[k - a + b]?
  else if b ≤ k ∧ k < b + n then pixels[k - b + a]?
  else pixels[k]?

/-- The row that lands in row `r` when rows `s` and `e` are exchanged. -/
def swapRow (s e r : Nat) : Nat := if r = s then e else if r = e then s else r

/-! ## Tileset asset (`KeyInt`, `LoadTileset`) -/

/-- The string literal `"tilew"`. -/
def key_tilew : List Nat := [116, 105, 108, 101, 119]

/-- The string literal `"tileh"`. -/
def key_tileh : List Nat := [116, 105, 108, 101, 104]

/-- The string literal `"data"`, with its terminating NUL. -/
def dataMarker : List Nat := [100, 97, 116, 97, 0]

/-- The set of `strspn` in `KeyInt`: `"\x20\x09\x0a\x0b\x0c\x0d"`. -/
def whitespace : List Nat := [32, 9, 10, 11, 12, 13]

/-- One comparison of `strstr`: does `key` stand at the head of `data`? The
bytes are compared from the left and the comparison stops at the first
difference (a NUL of `data` differs from every byte of a key); a byte needed
beyond the end of the buffer is outside the object. -/
def matchAt : List Nat → List Nat → Result Bool
  | _, [] => .ok true
  | [], _ :: _ => .undefined
  | d :: ds, k :: ks => if d = k then matchAt ds ks else .ok false

/-- `strstr(data, key)`: the offset of the first place where `key` stands,
`none` for the null pointer, which is returned at the NUL that ends `data`.
The buffer of `ReadFile` carries no NUL of its own: the scan runs on until it
finds the key, a NUL byte, or the end of the buffer. -/
def strstr : List Nat → List Nat → Result (Option Nat)
  | [], [] => .ok (some 0)
  | [], _ :: _ => .undefined
  | d :: ds, key => do
    let found ← matchAt (d :: ds) key
    if found then .ok (some 0)
    else if d = 0 then .ok none
    else do
      let k ← strstr ds key
      .ok (k.map (· + 1))

/-- `strspn(s, accept)`: the length of the longest head of `s` made of bytes
of `accept`. -/
def strspn : List Nat → List Nat → Result Nat
  | [], _ => .undefined
  | c :: cs, accept =>
    if c ∈ accept then do
      let n ← strspn cs accept
      .ok (n + 1)
    else .ok 0

/-- The digits of `atoi`: read while the byte is one of `'0'..'9'`. -/
def atoiDigits : List Nat → Int → Result Int
  | [], _ => .undefined
  | c :: cs, acc =>
    if 48 ≤ c ∧ c ≤ 57 then atoiDigits cs (acc * 10 + ((c : Int) - 48)) else .ok acc

/-- The optional sign of `atoi`, then its digits. -/
def atoiSign : List Nat → Result Int
  | [] => .undefined
  | c :: cs =>
    if c = 45 then do
      let v ← atoiDigits cs 0
      .ok (-v)
    else if c = 43 then atoiDigits cs 0
    else atoiDigits (c :: cs) 0

/-- The numeral that `atoi` reads: white space (`isspace`) is skipped, then an
optional sign and the decimal digits are read; the value is 0 when no digit
follows. -/
def atoiValue : List Nat → Result Int
  | [] => .undefined
  | c :: cs => if c = 32 ∨ (9 ≤ c ∧ c ≤ 13) then atoiValue cs else atoiSign (c :: cs)

/-- What `strtol` returns for a numeral of value `v`: the value, or `LONG_MAX`,
`LONG_MIN` when it lies beyond a 64-bit `long`. -/
def clampLong (v : Int) : Int :=
  if 9223372036854775807 < v then 9223372036854775807
  else if v < -9223372036854775808 then -9223372036854775808
  else v

/-- The conversion of a `long` to `int`: the low 32 bits, two's complement. -/
def longToInt (v : Int) : Int := (v + 2147483648) % 4294967296 - 2147483648

/-- `atoi(s)`, which is `(int) strtol(s, NULL, 10)`. -/
def atoi (s : List Nat) : Result Int := do
  let v ← atoiValue s
  .ok (longToInt (clampLong v))

/-- `KeyInt(data, key)`. -/
def KeyInt (data key : List Nat) : Result Int := do
  -- find the key
  let k ← strstr data key
  match k with
  | none => .error (Fatal.noKey key)
  | some k =>
    -- skip past it
    let k := k + key.length
    -- eat whitespace up to the value
    let n ← strspn (data.drop k) whitespace
    let k := k + n
    atoi (data.drop k)

/-- `memcmp(s1, s2, n) != 0`: the first `n` bytes are compared from the left,
up to the first difference; a byte needed beyond the end of either object is
outside the object. -/
def memcmp : List Nat → List Nat → Nat → Result Bool
  | _, _, 0 => .ok false
  | a :: as, b :: bs, n + 1 => if a = b then memcmp as bs n else .ok true
  | [], _, _ + 1 => .undefined
  | _ :: _, [], _ + 1 => .undefined

/-- The loop `while(buffer != end && memcmp("data", buffer, 4)) buffer++;` of
`LoadTileset`. The first argument is the buffer from `buffer` to `end`, the
second the offset of `buffer`; the result is the offset where the loop stops. -/
def findData : List Nat → Nat → Result Nat
  | [], off => .ok off
  | c :: cs, off => do
    let differs ← memcmp dataMarker (c :: cs) 4
    if differs then findData cs (off + 1) else .ok off

/-- What `LoadTileset` leaves: the globals `tilew`, `tileh`, `imagew`,
`imageh` and the pixel block handed to `MakeTexture`. -/
structure Tileset where
  tilew : Int
  tileh : Int
  imagew : Int
  imageh : Int
  pixels : List Nat
  deriving DecidableEq, Repr

/-- `TILE_SIZE`. -/
def TILE_SIZE : Int := 16

/-- `LoadTileset`, from the buffer that `ReadFile("tiles", ...)` returned on:
`numbytes` is the length of the buffer. -/
def LoadTileset (buffer : List Nat) : Result Tileset := do
  let numbytes := buffer.length
  -- decode the key data
  let tilew ← KeyInt buffer key_tilew
  let tileh ← KeyInt buffer key_tileh
  let imagew := tilew * TILE_SIZE
  let imageh := tileh * TILE_SIZE
  -- search for the data block
  let off ← findData buffer 0
  if off = numbytes then .error Fatal.noData
  else do
    let off := off + 4
    let pixels ← FlipRasterOrder imagew imageh (buffer.drop off)
    .ok { tilew := tilew, tileh := tileh, imagew := imagew, imageh := imageh, pixels := pixels }

/-- The bytes of an ASCII string. -/
def ascii (s : String) : List Nat := s.toList.map Char.toNat

/-- The decimal digits of `n` in ASCII, most significant first, in front of
`acc`; the first argument bounds the number of digits. -/
def decimalAux : Nat → Nat → List Nat → List Nat
  | 0, _, acc => acc
  | fuel + 1, n, acc =>
    if n < 10 then (n + 48) :: acc else decimalAux fuel (n / 10) ((n % 10 + 48) :: acc)

/-- The decimal numeral of `n` in ASCII. -/
def decimal (n : Nat) : List Nat := decimalAux (n + 1) n []

/-- The synthetic asset of the decode round trip: the header
`tilew <tw>\ntileh <th>\n`, the marker `data`, then the pixel block `P`. -/
def encodeAsset (tw th : Nat) (P : List Nat) : List Nat :=
  key_tilew ++ 32 :: (decimal tw ++ 10 :: (key_tileh ++ 32 :: (decimal th ++ 10 ::
    (dataMarker.take 4 ++ P))))

/-- The value `atoi` has accumulated after the digits `ds`, started from `a`. -/
def digitsValue (a : Int) (ds : List Nat) : Int :=
  ds.foldl (fun (a : Int) (c : Nat) => a * 10 + ((c : Int) - 48)) a

/-- The header `tilew <tw>\ntileh <th>\n` of `encodeAsset`. -/
def headerBytes (tw th : Nat) : List Nat :=
  key_tilew ++ 32 :: (decimal tw ++ 10 :: (key_tileh ++ 32 :: (decimal th ++ [10])))

/-- The asset `tilew 1\ntileh 1\ndata` followed by 8 bytes, where a 16 by 16
image needs 1024. -/
def shortAsset : List Nat := ascii "tilew 1\ntileh 1\ndata" ++ [1, 2, 3, 4, 5, 6, 7, 8]

/-! ## Map store (`PlaceClick`, `GetTileIndex`, `WriteMapData`, `ReadMapData`) -/

/-- The globals of the map store: `layoutdata` (declared `int layoutdata[1024]`),
`currentlayer`, and `selectedtile` of the palette window. -/
structure Editor where
  layoutdata : List Int
  currentlayer : Int
  selectedtile : Int
  deriving DecidableEq, Repr

/-- `GetSelectedTile()`. -/
def GetSelectedTile (ed : Editor) : Int := ed.selectedtile

/-- `PlaceClick(x, y)`. -/
def PlaceClick (ed : Editor) (x y : Int) : Result Editor := do
  let x := Int.tdiv x 32
  let y := Int.tdiv y 32
  let layoutdata ← store ed.layoutdata ((ed.currentlayer * 16 * 16) + (y * 16) + x)
    (GetSelectedTile ed)
  .ok { ed with layoutdata := layoutdata }

/-- `GetTileIndex(layer, tilenum)`. -/
def GetTileIndex (ed : Editor) (layer tilenum : Int) : Result Int :=
  load ed.layoutdata ((layer * 16 * 16) + tilenum)

/-- `sizeof(int)`. -/
def sizeofInt : Nat := 4

/-- `sizeof(layoutdata)`, the size of `int layoutdata[1024]`. -/
def sizeofLayoutdata : Nat := 1024 * sizeofInt

/-- The object representation of an `int`: four bytes, two's complement, least
significant byte first. -/
def intBytes (v : Int) : List Nat :=
  let u := (v % 4294967296).toNat
  [u % 256, u / 256 % 256, u / 65536 % 256, u / 16777216 % 256]

/-- The `int` that four bytes represent. -/
def bytesInt (b0 b1 b2 b3 : Nat) : Int :=
  let u := b0 + 256 * b1 + 65536 * b2 + 16777216 * b3
  if u < 2147483648 then (u : Int) else (u : Int) - 4294967296

/-- The bytes of an array of `int`. -/
def objectBytes (a : List Int) : List Nat := a.flatMap intBytes

/-- The array of `int` that a block of bytes represents. -/
def intsOfBytes : List Nat → List Int
  | b0 :: b1 :: b2 :: b3 :: rest => bytesInt b0 b1 b2 b3 :: intsOfBytes rest
  | _ => []

/-- The files the program can see: the content of each file that exists, and
whether `fopen(filename, "wb")` succeeds. -/
structure Disk where
  content : String → Option (List Nat)
  writable : String → Bool

/-- `WriteFile(filename, data, numbytes)`; `data` is the object the pointer
points to. `fwrite` reads `numbytes` bytes of it. -/
def WriteFile (disk : Disk) (filename : String) (data : List Nat) (numbytes : Nat) :
    Result Disk :=
  if disk.writable filename then
    if numbytes ≤ data.length then
      .ok { disk with
        content := fun f => if f = filename then some (data.take numbytes) else disk.content f }
    else .undefined
  else .error Fatal.openFile

/-- `ReadFile(filename, &data)`: the buffer it allocates and fills; the size
it returns is the length of the buffer. -/
def ReadFile (disk : Disk) (filename : String) : Result (List Nat) :=
  match disk.content filename with
  | none => .error Fatal.openFile
  | some bytes => .ok bytes

/-- The byte count `sizeof(int) * sizeof(layoutdata)` that `WriteMapData`
passes to `WriteFile`. -/
def WriteMapData_numbytes : Nat := sizeofInt * sizeofLayoutdata

/-- `WriteMapData()`. -/
def WriteMapData (disk : Disk) (ed : Editor) : Result Disk :=
  WriteFile disk "maptiles.bin" (objectBytes ed.layoutdata) WriteMapData_numbytes

/-- `ReadMapData()`; `memcpy` reads `sizeof(layoutdata)` bytes of the buffer. -/
def ReadMapData (disk : Disk) (ed : Editor) : Result Editor := do
  let buffer ← ReadFile disk "maptiles.bin"
  if sizeofLayoutdata ≤ buffer.length then
    .ok { ed with layoutdata := intsOfBytes (buffer.take sizeofLayoutdata) }
  else .undefined

/-- `WriteFile(filename, data, numbytes)` as the machine runs it when
`numbytes` goes beyond the object `data`: `fwrite` starts at the object and
reads on into the memory behind it; `beyond` is what it gets to read there
(nothing, a part, or all of the missing bytes), and the file receives the
bytes read, at most `numbytes`, the object first. Within the object this is
`WriteFile`. -/
def WriteFileBeyond (disk : Disk) (filename : String) (data beyond : List Nat)
    (numbytes : Nat) : Result Disk :=
  if disk.writable filename then
    .ok { disk with
      content := fun f =>
        if f = filename then some ((data ++ beyond).take numbytes) else disk.content f }
  else .error Fatal.openFile

/-- `WriteMapData()` as the machine runs it, `beyond` being the bytes behind
`layoutdata` that `fwrite` gets to read. -/
def WriteMapDataBeyond (disk : Disk) (ed : Editor) (beyond : List Nat) : Result Disk :=
  WriteFileBeyond disk "maptiles.bin" (objectBytes ed.layoutdata) beyond WriteMapData_numbytes

/-- A disk with no file on it, where every file can be created. -/
def emptyDisk : Disk := { content := fun _ => none, writable := fun _ => true }

/-- The map at startup: 1024 zeros. -/
def zeroGrid : List Int := List.replicate 1024 0

/-- A map with 1024 different entries, negative ones among them. -/
def rampGrid : List Int := List.map (fun (i : Nat) => (i : Int) - 512) (List.range 1024)

/-- `ChangeLayer()`; the `printf` leaves the state as it is. -/
def ChangeLayer (ed : Editor) : Editor :=
  { ed with currentlayer := Int.tmod (ed.currentlayer + 1) 4 }

/-- `GLUT_LEFT_BUTTON` of `GL/freeglut.h`. -/
def GLUT_LEFT_BUTTON : Int := 0

/-- `GLUT_UP` of `GL/freeglut.h`. -/
def GLUT_UP : Int := 1

/-- `MouseFunc(button, state, x, y)`. -/
def MouseFunc (ed : Editor) (button state x y : Int) : Result Editor :=
  if button = GLUT_LEFT_BUTTON ∧ state = GLUT_UP then PlaceClick ed x (512 - y) else .ok ed

/-- `MouseMotionFunc(x, y)`. -/
def MouseMotionFunc (ed : Editor) (x y : Int) : Result Editor :=
  PlaceClick ed x (512 - y)

/-- The editor at startup: `layoutdata`, `currentlayer` and `selectedtile` are
zero-initialised. -/
def startEditor : Editor := { layoutdata := zeroGrid, currentlayer := 0, selectedtile := 0 }

/-- The editor after `n` calls of `ChangeLayer` from startup. -/
def afterChangeLayers : Nat → Editor
  | 0 => startEditor
  | n + 1 => ChangeLayer (afterChangeLayers n)

/-- The index of `layoutdata` that `PlaceClick(x, 512 - y)` writes: the
expression of `PlaceClick` with the argument that `MouseFunc` and
`MouseMotionFunc` pass for the window coordinates `(x, y)`. -/
def clickIndex (currentlayer x y : Int) : Int :=
  (currentlayer * 16 * 16) + (Int.tdiv (512 - y) 32 * 16) + Int.tdiv x 32

/-! ## Simulation clock (`SimRunFrame`, `MainLoopFunc`) -/

/-- `SIM_TIMESTEP`, the simulation timestep in msecs. -/
def SIM_TIMESTEP : Nat := 32

/-- The number of values of an `unsigned int`. -/
def UINT_RANGE : Nat := 4294967296

/-- The globals `realtime`, `simframe`, `simtime`, each an `unsigned int`. -/
structure SimClock where
  realtime : Nat
  simframe : Nat
  simtime : Nat
  deriving DecidableEq, Repr

/-- The clock at startup: the three globals are zero-initialised. -/
def startup : SimClock := { realtime := 0, simframe := 0, simtime := 0 }

/-- `SimRunFrame()`. -/
def SimRunFrame (c : SimClock) : SimClock :=
  let simframe := (c.simframe + 1) % UINT_RANGE
  { c with simframe := simframe, simtime := (simframe * SIM_TIMESTEP) % UINT_RANGE }

/-- `MainLoopFunc()`, one idle tick; `sample` is what `Sys_Milliseconds()`
returns at the tick. The calls `Sys_Sleep(0)` and `glutPostRedisplay()` leave
the clock as it is. -/
def MainLoopFunc (c : SimClock) (sample : Nat) : SimClock :=
  let newtime := sample % UINT_RANGE
  -- yield the thread if no time has advanced
  if newtime = c.realtime then c
  else
    let c := { c with realtime := newtime }
    -- run the simulation code
    if c.simtime < c.realtime then SimRunFrame c else c

/-- The clock after one idle tick for each sample, in order. -/
def runTicks (c : SimClock) (samples : List Nat) : SimClock :=
  samples.foldl MainLoopFunc c

/-- Each sample is at most 32 ms after the one before it, the first at most
32 ms after `t`, and none is earlier than the one before it. -/
def closeSamples : Nat → List Nat → Prop
  | _, [] => True
  | t, s :: rest => t ≤ s ∧ s ≤ t + 32 ∧ closeSamples s rest

instance decideCloseSamples : ∀ (t : Nat) (samples : List Nat), Decidable (closeSamples t samples)
  | _, [] => isTrue trivial
  | t, s :: rest =>
    have := decideCloseSamples s rest
    inferInstanceAs (Decidable (t ≤ s ∧ s ≤ t + 32 ∧ closeSamples s rest))

/-- The invariant of the clock while no `unsigned int` wraps. -/
def ClockInv (c : SimClock) : Prop :=
  c.simtime = 32 * c.simframe ∧ c.simtime < c.realtime + 32 ∧ c.realtime < 4294967296 - 32

/-! ## Lemmas on outcomes and memory -/

@[simp] theorem Result.ok_bind {α β : Type} (a : α) (f : α → Result β) :
    (Result.ok a >>= f) = f a := rfl

@[simp] theorem Result.error_bind {α β : Type} (e : Fatal) (f : α → Result β) :
    ((Result.error e : Result α) >>= f) = Result.error e := rfl

@[simp] theorem Result.undefined_bind {α β : Type} (f : α → Result β) :
    ((Result.undefined : Result α) >>= f) = Result.undefined := rfl

@[simp] theorem Result.pure_eq {α : Type} (a : α) : (pure a : Result α) = Result.ok a := rfl

theorem load_natCast {α : Type} {pixels : List α} {n : Nat} {v : α} (h : pixels[n]? = some v) :
    load pixels (n : Int) = Result.ok v := by
  show load pixels (Int.ofNat n) = _
  simp [load, h]

theorem store_natCast {α : Type} {pixels : List α} {n : Nat} (v : α) (h : n < pixels.length) :
    store pixels (n : Int) v = Result.ok (pixels.set n v) := by
  show store pixels (Int.ofNat n) v = _
  simp [store, h]

theorem swapComponents_spec (a b : Nat) :
    ∀ (n j : Nat) (pixels : List Nat), a + j + n ≤ b → b + j + n ≤ pixels.length →
      ∃ out, swapComponents a b n j pixels = Result.ok out ∧ out.length = pixels.length ∧
        ∀ k, out[k]? = swapped pixels (a + j) (b + j) n k := by
  intro n
  induction n with
  | zero =>
    intro j pixels _ _
    refine ⟨pixels, rfl, rfl, fun k => ?_⟩
    simp only [swapped]
    rw [if_neg (by omega), if_neg (by omega)]
  | succ n ih =>
    intro j pixels hab hlen
    have ha : a + j < pixels.length := by omega
    have hb : b + j < pixels.length := by omega
    obtain ⟨x, hx⟩ : ∃ x, pixels[a + j]? = some x := ⟨_, List.getElem?_eq_getElem ha⟩
    obtain ⟨y, hy⟩ : ∃ y, pixels[b + j]? = some y := ⟨_, List.getElem?_eq_getElem hb⟩
    have e1 : ((a : Int) + (j : Int)) = ((a + j : Nat) : Int) := by push_cast; rfl
    have e2 : ((b : Int) + (j : Int)) = ((b + j : Nat) : Int) := by push_cast; rfl
    have e3 : ((j : Int) + 1) = ((j + 1 : Nat) : Int) := by push_cast; rfl
    obtain ⟨out, hout, hl, hk⟩ := ih (j + 1) ((pixels.set (a + j) y).set (b + j) x)
      (by omega) (by simp only [List.length_set]; omega)
    refine ⟨out, ?_, ?_, ?_⟩
    · simp only [swapComponents, e1, e2, e3, load_natCast hx, load_natCast hy,
        Result.ok_bind, store_natCast _ ha,
        store_natCast _ (show b + j < (pixels.set (a + j) y).length by
          simp only [List.length_set]; exact hb)]
      exact hout
    · simpa only [List.length_set] using hl
    · intro k
      rw [hk k]
      simp only [swapped, List.getElem?_set, List.length_set]
      split_ifs <;>
        first
        | rfl
        | (exfalso; omega)
        | (rw [← hx]; congr 1; omega)
        | (rw [← hy]; congr 1; omega)
        | (congr 1; omega)

theorem swapped_swapped (pixels out : List Nat) (a b n m : Nat) (hab : a + n + m ≤ b)
    (h : ∀ k, out[k]? = swapped pixels a b n k) (k : Nat) :
    swapped out (a + n) (b + n) m k = swapped pixels a b (n + m) k := by
  simp only [swapped, h]
  split_ifs <;>
    first
    | rfl
    | (exfalso; omega)
    | (congr 1; omega)

theorem swapLine_spec (W s e : Nat) (hrow : s * W + W ≤ e * W) :
    ∀ (n i : Nat) (pixels : List Nat), i + n = W → (e * W + W) * 4 ≤ pixels.length →
      ∃ out, swapLine W s e n i pixels = Result.ok out ∧ out.length = pixels.length ∧
        ∀ k, out[k]? = swapped pixels ((s * W + i) * 4) ((e * W + i) * 4) (4 * n) k := by
  intro n
  induction n with
  | zero =>
    intro i pixels _ _
    refine ⟨pixels, rfl, rfl, fun k => ?_⟩
    simp only [swapped]
    rw [if_neg (by omega), if_neg (by omega)]
  | succ n ih =>
    intro i pixels hi hlen
    have e1 : (((s : Int) * (W : Int) + (i : Int)) * 4) = (((s * W + i) * 4 : Nat) : Int) := by
      push_cast; rfl
    have e2 : (((e : Int) * (W : Int) + (i : Int)) * 4) = (((e * W + i) * 4 : Nat) : Int) := by
      push_cast; rfl
    have e3 : ((i : Int) + 1) = ((i + 1 : Nat) : Int) := by push_cast; rfl
    obtain ⟨mid, hmid, hml, hmk⟩ := swapComponents_spec ((s * W + i) * 4) ((e * W + i) * 4)
      4 0 pixels (by omega) (by omega)
    obtain ⟨out, hout, hl, hk⟩ := ih (i + 1) mid (by omega) (by omega)
    refine ⟨out, ?_, by omega, ?_⟩
    · simp only [swapLine, e1, e2, e3]
      have h0 : swapComponents (((s * W + i) * 4 : Nat) : Int) (((e * W + i) * 4 : Nat) : Int)
          4 0 pixels = Result.ok mid := hmid
      rw [h0]
      exact hout
    · intro k
      rw [hk k]
      have h4 := swapped_swapped pixels mid ((s * W + i) * 4) ((e * W + i) * 4) 4 (4 * n)
        (by omega) hmk k
      have e4 : (s * W + (i + 1)) * 4 = (s * W + i) * 4 + 4 := by ring
      have e5 : (e * W + (i + 1)) * 4 = (e * W + i) * 4 + 4 := by ring
      have e6 : 4 * (n + 1) = 4 + 4 * n := by ring
      rw [e4, e5, e6]
      exact h4

theorem row_succ_le (W : Nat) {r s : Nat} (h : r < s) : r * W + W ≤ s * W := by
  have h1 := Nat.mul_le_mul_right W (Nat.succ_le_of_lt h)
  rw [Nat.succ_mul] at h1
  exact h1

theorem swapLine_rows (W s e : Nat) (hse : s < e) (pixels : List Nat)
    (hlen : (e * W + W) * 4 ≤ pixels.length) :
    ∃ out, swapLine W s e W 0 pixels = Result.ok out ∧ out.length = pixels.length ∧
      (∀ r c j, c < W → j < 4 →
        out[(r * W + c) * 4 + j]? = pixels[(swapRow s e r * W + c) * 4 + j]?) ∧
      (∀ k, (e * W + W) * 4 ≤ k → out[k]? = pixels[k]?) := by
  have hrow := row_succ_le W hse
  obtain ⟨out, hout, hl, hk⟩ := swapLine_spec W s e hrow W 0 pixels (by omega) hlen
  refine ⟨out, hout, hl, ?_, ?_⟩
  · intro r c j hc hj
    rw [hk]
    simp only [swapped, swapRow]
    by_cases h1 : r = s
    · subst h1
      rw [if_pos (by omega), if_pos rfl]
      congr 1
      omega
    · by_cases h2 : r = e
      · subst h2
        rw [if_neg (by omega), if_pos (by omega), if_neg h1, if_pos rfl]
        congr 1
        omega
      · rw [if_neg h1, if_neg h2]
        have hs : r * W + W ≤ s * W ∨ s * W + W ≤ r * W := by
          rcases Nat.lt_or_gt_of_ne h1 with h | h
          · exact Or.inl (row_succ_le W h)
          · exact Or.inr (row_succ_le W h)
        have he : r * W + W ≤ e * W ∨ e * W + W ≤ r * W := by
          rcases Nat.lt_or_gt_of_ne h2 with h | h
          · exact Or.inl (row_succ_le W h)
          · exact Or.inr (row_succ_le W h)
        rw [if_neg (by omega), if_neg (by omega)]
  · intro k hk2
    rw [hk]
    simp only [swapped]
    rw [if_neg (by omega), if_neg (by omega)]

theorem flipLoop_spec (W H : Nat) :
    ∀ (fuel s : Nat) (pixels : List Nat), H ≤ fuel + 2 * s → W * H * 4 ≤ pixels.length →
      ∃ out, flipLoop W fuel s ((H : Int) - 1 - s) pixels = Result.ok out ∧
        out.length = pixels.length ∧
        (∀ r c j, r < H → c < W → j < 4 →
          out[(r * W + c) * 4 + j]? =
            if s ≤ r ∧ r + s < H then pixels[((H - 1 - r) * W + c) * 4 + j]?
            else pixels[(r * W + c) * 4 + j]?) ∧
        (∀ k, W * H * 4 ≤ k → out[k]? = pixels[k]?) := by
  intro fuel
  induction fuel with
  | zero =>
    intro s pixels hf _
    refine ⟨pixels, rfl, rfl, fun r c j hr _ _ => ?_, fun _ _ => rfl⟩
    rw [if_neg (by omega)]
  | succ fuel ih =>
    intro s pixels hf hlen
    by_cases hlt : 2 * s + 2 ≤ H
    · obtain ⟨e, he⟩ : ∃ e : Nat, e + s + 1 = H := ⟨H - 1 - s, by omega⟩
      have hHe : e * W + W ≤ W * H := by
        have h1 := row_succ_le W (show e < H by omega)
        rw [Nat.mul_comm W H]
        exact h1
      have e1 : ((H : Int) - 1 - (s : Int)) = ((e : Nat) : Int) := by omega
      have e2 : ((s : Int) + 1) = ((s + 1 : Nat) : Int) := by push_cast; rfl
      have e3 : ((e : Int) - 1) = (H : Int) - 1 - ((s + 1 : Nat) : Int) := by omega
      obtain ⟨mid, hmid, hml, hmr, hmk⟩ := swapLine_rows W s e (by omega) pixels (by omega)
      obtain ⟨out, hout, hol, hor, hok⟩ := ih (s + 1) mid (by omega) (by omega)
      refine ⟨out, ?_, by omega, ?_, ?_⟩
      · rw [e1]
        simp only [flipLoop]
        rw [if_pos (by omega), Int.toNat_ofNat, hmid, Result.ok_bind, e2, e3]
        exact hout
      · intro r c j hr hc hj
        rw [hor r c j hr hc hj]
        by_cases h1 : s + 1 ≤ r ∧ r + (s + 1) < H
        · rw [if_pos h1, if_pos (by omega), hmr _ c j hc hj]
          simp only [swapRow]
          rw [if_neg (by omega), if_neg (by omega)]
        · rw [if_neg h1, hmr _ c j hc hj]
          simp only [swapRow]
          by_cases h2 : r = s
          · subst h2
            rw [if_pos rfl, if_pos (by omega), show H - 1 - r = e by omega]
          · by_cases h3 : r = e
            · subst h3
              rw [if_neg h2, if_pos rfl, if_pos (by omega), show H - 1 - r = s by omega]
            · rw [if_neg h2, if_neg h3, if_neg (by omega)]
      · intro k hk
        rw [hok k hk, hmk k (by omega)]
    · refine ⟨pixels, ?_, rfl, fun r c j hr _ _ => ?_, fun _ _ => rfl⟩
      · simp only [flipLoop]
        rw [if_neg (by omega)]
      · by_cases h1 : s ≤ r ∧ r + s < H
        · rw [if_pos h1, show H - 1 - r = r by omega]
        · rw [if_neg h1]

theorem FlipRasterOrder_rows (W H : Nat) (pixels : List Nat)
    (hlen : W * H * 4 ≤ pixels.length) :
    ∃ out, FlipRasterOrder W H pixels = Result.ok out ∧ out.length = pixels.length ∧
      (∀ r c j, r < H → c < W → j < 4 →
        out[(r * W + c) * 4 + j]? = pixels[((H - 1 - r) * W + c) * 4 + j]?) ∧
      (∀ k, W * H * 4 ≤ k → out[k]? = pixels[k]?) := by
  obtain ⟨out, hout, hl, hr, hk⟩ := flipLoop_spec W H H 0 pixels (by omega) hlen
  refine ⟨out, ?_, hl, fun r c j h1 h2 h3 => ?_, hk⟩
  · simp only [FlipRasterOrder, Int.toNat_ofNat]
    have e0 : ((H : Int) - 1) = (H : Int) - 1 - ((0 : Nat) : Int) := by simp
    rw [e0]
    exact hout
  · rw [hr r c j h1 h2 h3, if_pos (by omega)]

/-- C1. For every width `W`, height `H` and buffer of at least `W*H*4` bytes,
`FlipRasterOrder` returns, leaves the length of the buffer as it was, puts at
offset `(r*W + c)*4 + j` (row `r < H`, column `c < W`, component `j < 4`) the
byte that was at offset `((H-1-r)*W + c)*4 + j`, and leaves every byte at an
offset of `W*H*4` or more as it was. -/
theorem FlipRasterOrder_flips_rows (W H : Nat) (pixels : List Nat)
    (hlen : W * H * 4 ≤ pixels.length) :
    ∃ out, FlipRasterOrder W H pixels = Result.ok out ∧ out.length = pixels.length ∧
      (∀ r c j, r < H → c < W → j < 4 →
        out[(r * W + c) * 4 + j]? = pixels[((H - 1 - r) * W + c) * 4 + j]?) ∧
      (∀ k, W * H * 4 ≤ k → out[k]? = pixels[k]?) := by
  obtain ⟨out, hout, hl, hr, hk⟩ := flipLoop_spec W H H 0 pixels (by omega) hlen
  refine ⟨out, ?_, hl, fun r c j h1 h2 h3 => ?_, hk⟩
  · simp only [FlipRasterOrder, Int.toNat_ofNat]
    have e0 : ((H : Int) - 1) = (H : Int) - 1 - ((0 : Nat) : Int) := by simp
    rw [e0]
    exact hout
  · rw [hr r c j h1 h2 h3, if_pos (by omega)]

/-- Witness of C1: a 2 by 3 image in a buffer of 26 bytes. -/
theorem FlipRasterOrder_flips_rows_witness :
    2 * 3 * 4 ≤ (List.range 26).length ∧
    ∃ out, FlipRasterOrder ((2 : Nat) : Int) ((3 : Nat) : Int) (List.range 26) = Result.ok out ∧
      out.length = (List.range 26).length ∧
      (∀ r c j, r < 3 → c < 2 → j < 4 →
        out[(r * 2 + c) * 4 + j]? = (List.range 26)[((3 - 1 - r) * 2 + c) * 4 + j]?) ∧
      (∀ k, 2 * 3 * 4 ≤ k → out[k]? = (List.range 26)[k]?) :=
  ⟨by decide, FlipRasterOrder_flips_rows 2 3 (List.range 26) (by decide)⟩

theorem offset_decompose (W H k : Nat) (hk : k < W * H * 4) :
    ∃ r c j, r < H ∧ c < W ∧ j < 4 ∧ k = (r * W + c) * 4 + j := by
  have hW : 0 < W := by
    rcases Nat.eq_zero_or_pos W with h | h
    · subst h
      simp at hk
    · exact h
  refine ⟨k / 4 / W, k / 4 % W, k % 4, ?_, Nat.mod_lt _ hW, Nat.mod_lt _ (by decide), ?_⟩
  · rw [Nat.div_lt_iff_lt_mul hW]
    have h1 : k / 4 < H * W := by
      rw [Nat.div_lt_iff_lt_mul (by decide)]
      rw [Nat.mul_comm H W]
      exact hk
    exact h1
  · have h1 := Nat.div_add_mod (k / 4) W
    have h2 := Nat.div_add_mod k 4
    rw [Nat.mul_comm (k / 4 / W) W, h1]
    omega

/-- C2. For every width `W`, height `H` (even or odd, 0 and 1 included) and
buffer of at least `W*H*4` bytes, `FlipRasterOrder` run twice returns the
buffer it started from, byte for byte. -/
theorem FlipRasterOrder_twice (W H : Nat) (pixels : List Nat)
    (hlen : W * H * 4 ≤ pixels.length) :
    ∃ mid, FlipRasterOrder W H pixels = Result.ok mid ∧
      FlipRasterOrder W H mid = Result.ok pixels := by
  obtain ⟨mid, hmid, hml, hmr, hmk⟩ := FlipRasterOrder_rows W H pixels hlen
  obtain ⟨out, hout, _, hor, hok⟩ := FlipRasterOrder_rows W H mid (by omega)
  refine ⟨mid, hmid, ?_⟩
  rw [hout]
  congr 1
  apply List.ext_getElem?
  intro k
  by_cases hk : k < W * H * 4
  · obtain ⟨r, c, j, hr, hc, hj, rfl⟩ := offset_decompose W H k hk
    rw [hor r c j hr hc hj, hmr (H - 1 - r) c j (by omega) hc hj,
      show H - 1 - (H - 1 - r) = r by omega]
  · rw [hok k (by omega), hmk k (by omega)]

/-- Witness of C2: a 1 by 5 image (odd height) in a buffer of 20 bytes. -/
theorem FlipRasterOrder_twice_witness :
    1 * 5 * 4 ≤ (List.range 20).length ∧
    ∃ mid, FlipRasterOrder ((1 : Nat) : Int) ((5 : Nat) : Int) (List.range 20) = Result.ok mid ∧
      FlipRasterOrder ((1 : Nat) : Int) ((5 : Nat) : Int) mid = Result.ok (List.range 20) :=
  ⟨by decide, FlipRasterOrder_twice 1 5 (List.range 20) (by decide)⟩

theorem FlipRasterOrder_eval_odd : FlipRasterOrder 1 3 [1, 2, 3, 4, 5, 6, 7, 8, 9, 10, 11, 12, 13] =
    Result.ok [9, 10, 11, 12, 5, 6, 7, 8, 1, 2, 3, 4, 13] := by decide

theorem FlipRasterOrder_eval_short : FlipRasterOrder 1 2 [1, 2, 3, 4, 5, 6, 7] =
    Result.undefined := by decide


/-! ## Lemmas on the string functions -/

theorem matchAt_append (key rest : List Nat) : matchAt (key ++ rest) key = Result.ok true := by
  induction key with
  | nil => cases rest <;> rfl
  | cons k ks ih => simp [matchAt, ih]

theorem strstr_here (k : Nat) (ks rest : List Nat) :
    strstr (k :: ks ++ rest) (k :: ks) = Result.ok (some 0) := by
  have h := matchAt_append (k :: ks) rest
  simp only [List.cons_append] at h ⊢
  simp only [strstr, h, Result.ok_bind]
  rfl

theorem strstr_skip (k : Nat) (ks rest : List Nat) (m : Nat)
    (hrest : strstr rest (k :: ks) = Result.ok (some m)) :
    ∀ pre : List Nat, (∀ c ∈ pre, c ≠ k ∧ c ≠ 0) →
      strstr (pre ++ rest) (k :: ks) = Result.ok (some (m + pre.length)) := by
  intro pre
  induction pre with
  | nil => intro _; simpa using hrest
  | cons c cs ih =>
    intro h
    have hc := h c (List.mem_cons_self _ _)
    have ih1 := ih (fun x hx => h x (List.mem_cons_of_mem _ hx))
    simp only [List.cons_append, strstr, matchAt, if_neg hc.1, Result.ok_bind, List.append_eq]
    rw [if_neg (by simp), if_neg hc.2, ih1]
    rfl

theorem decimalAux_append : ∀ (fuel n : Nat) (acc : List Nat),
    decimalAux fuel n acc = decimalAux fuel n [] ++ acc := by
  intro fuel
  induction fuel with
  | zero => intro n acc; rfl
  | succ fuel ih =>
    intro n acc
    simp only [decimalAux]
    split_ifs
    · rfl
    · rw [ih (n / 10) ((n % 10 + 48) :: acc), ih (n / 10) [n % 10 + 48]]
      simp

theorem decimalAux_digits : ∀ (fuel n : Nat), ∀ c ∈ decimalAux fuel n [], 48 ≤ c ∧ c ≤ 57 := by
  intro fuel
  induction fuel with
  | zero => intro n c hc; simp [decimalAux] at hc
  | succ fuel ih =>
    intro n c hc
    simp only [decimalAux] at hc
    split_ifs at hc with h
    · simp only [List.mem_singleton] at hc
      omega
    · rw [decimalAux_append] at hc
      simp only [List.mem_append, List.mem_singleton] at hc
      rcases hc with hc | hc
      · exact ih _ c hc
      · omega

theorem decimal_digits (n : Nat) : ∀ c ∈ decimal n, 48 ≤ c ∧ c ≤ 57 :=
  decimalAux_digits (n + 1) n

theorem decimal_cons (n : Nat) : ∃ c cs, decimal n = c :: cs ∧ 48 ≤ c ∧ c ≤ 57 := by
  have h : decimal n ≠ [] := by
    unfold decimal
    simp only [decimalAux]
    split_ifs
    · simp
    · rw [decimalAux_append]
      simp
  obtain ⟨c, cs, hcs⟩ := List.exists_cons_of_ne_nil h
  exact ⟨c, cs, hcs, decimal_digits n c (by rw [hcs]; exact List.mem_cons_self _ _)⟩

theorem atoiDigits_append (tl : List Nat) : ∀ (ds : List Nat) (a : Int),
    (∀ c ∈ ds, 48 ≤ c ∧ c ≤ 57) → atoiDigits (ds ++ tl) a = atoiDigits tl (digitsValue a ds) := by
  intro ds
  induction ds with
  | nil => intro a _; rfl
  | cons d ds ih =>
    intro a h
    have hd := h d (List.mem_cons_self _ _)
    simp only [List.cons_append, atoiDigits, if_pos hd, List.append_eq]
    rw [ih _ (fun x hx => h x (List.mem_cons_of_mem _ hx))]
    rfl

theorem digitsValue_decimalAux : ∀ (fuel n : Nat), n < fuel →
    digitsValue 0 (decimalAux fuel n []) = n := by
  intro fuel
  induction fuel with
  | zero => intro n h; omega
  | succ fuel ih =>
    intro n hn
    simp only [decimalAux]
    split_ifs with h
    · simp [digitsValue]
    · rw [decimalAux_append]
      have h1 := ih (n / 10) (by omega)
      simp only [digitsValue, List.foldl_append, List.foldl_cons, List.foldl_nil] at h1 ⊢
      rw [h1]
      omega

theorem atoiDigits_decimal (n : Nat) (c : Nat) (rest : List Nat) (hc : ¬ (48 ≤ c ∧ c ≤ 57)) :
    atoiDigits (decimal n ++ c :: rest) 0 = Result.ok (n : Int) := by
  rw [atoiDigits_append _ _ _ (decimal_digits n)]
  simp only [atoiDigits, if_neg hc]
  rw [show digitsValue 0 (decimal n) = (n : Int) from digitsValue_decimalAux (n + 1) n (by omega)]

theorem atoiValue_decimal (n : Nat) (c : Nat) (rest : List Nat) (hc : ¬ (48 ≤ c ∧ c ≤ 57)) :
    atoiValue (decimal n ++ c :: rest) = Result.ok (n : Int) := by
  have h := atoiDigits_decimal n c rest hc
  obtain ⟨d, ds, hds, hd⟩ := decimal_cons n
  rw [hds] at h ⊢
  simp only [List.cons_append] at h ⊢
  simp only [atoiValue, atoiSign]
  rw [if_neg (by omega), if_neg (by omega), if_neg (by omega)]
  exact h

theorem longToInt_clampLong (n : Nat) (hn : n < 2147483648) :
    longToInt (clampLong (n : Int)) = (n : Int) := by
  simp only [clampLong, longToInt]
  rw [if_neg (by omega), if_neg (by omega)]
  omega

theorem atoi_decimal (n : Nat) (c : Nat) (rest : List Nat) (hc : ¬ (48 ≤ c ∧ c ≤ 57))
    (hn : n < 2147483648) :
    atoi (decimal n ++ c :: rest) = Result.ok (n : Int) := by
  simp only [atoi, atoiValue_decimal n c rest hc, Result.ok_bind, longToInt_clampLong n hn]

theorem strspn_space_decimal (n : Nat) (rest : List Nat) :
    strspn (32 :: (decimal n ++ rest)) whitespace = Result.ok 1 := by
  obtain ⟨d, ds, hds, hd⟩ := decimal_cons n
  rw [hds]
  have h1 : d ∉ whitespace := by
    simp only [whitespace, List.mem_cons, List.mem_singleton, List.not_mem_nil, or_false]
    omega
  simp only [List.cons_append, strspn, if_neg h1]
  simp [whitespace]

theorem KeyInt_value (data key : List Nat) (k n : Nat) (rest : List Nat) (hn : n < 2147483648)
    (hk : strstr data key = Result.ok (some k))
    (hd : data.drop (k + key.length) = 32 :: (decimal n ++ 10 :: rest)) :
    KeyInt data key = Result.ok (n : Int) := by
  have h2 : data.drop (k + key.length + 1) = decimal n ++ 10 :: rest := by
    rw [← List.drop_drop, hd]
    rfl
  simp only [KeyInt, hk, Result.ok_bind, hd, strspn_space_decimal, h2]
  exact atoi_decimal n 10 rest (by omega) hn

theorem findData_skip (rest : List Nat) : ∀ (pre : List Nat) (off : Nat),
    (∀ c ∈ pre, c ≠ 100) → findData (pre ++ rest) off = findData rest (off + pre.length) := by
  intro pre
  induction pre with
  | nil => intro off _; rfl
  | cons c cs ih =>
    intro off h
    have hc := h c (List.mem_cons_self _ _)
    simp only [List.cons_append, findData, dataMarker, memcmp, if_neg (Ne.symm hc),
      Result.ok_bind, if_true, List.append_eq]
    rw [ih (off + 1) (fun x hx => h x (List.mem_cons_of_mem _ hx))]
    congr 1
    simp only [List.length_cons]
    omega

theorem findData_here (P : List Nat) (off : Nat) :
    findData (dataMarker.take 4 ++ P) off = Result.ok off := by
  simp [findData, dataMarker, memcmp]

/-! ## Decoding the synthetic asset -/

theorem encodeAsset_eq (tw th : Nat) (P : List Nat) :
    encodeAsset tw th P = headerBytes tw th ++ (dataMarker.take 4 ++ P) := by
  simp [encodeAsset, headerBytes]

theorem KeyInt_encodeAsset_tilew (tw th : Nat) (P : List Nat) (htw : tw < 2147483648) :
    KeyInt (encodeAsset tw th P) key_tilew = Result.ok (tw : Int) := by
  apply KeyInt_value (encodeAsset tw th P) key_tilew 0 tw
    (key_tileh ++ 32 :: (decimal th ++ 10 :: (dataMarker.take 4 ++ P))) htw
  · exact strstr_here 116 [105, 108, 101, 119] _
  · rfl

theorem strstr_tileh_step (X : List Nat) (m : Nat)
    (h : strstr (105 :: 108 :: 101 :: 119 :: X) key_tileh = Result.ok (some m)) :
    strstr (116 :: 105 :: 108 :: 101 :: 119 :: X) key_tileh = Result.ok (some (m + 1)) := by
  rw [strstr]
  simp only [matchAt, key_tileh, if_true, Result.ok_bind]
  rw [if_neg (by decide)]
  simp only [Result.ok_bind]
  rw [if_neg (by simp), if_neg (by decide)]
  have h1 : strstr (105 :: 108 :: 101 :: 119 :: X) [116, 105, 108, 101, 104] =
      Result.ok (some m) := h
  rw [h1]
  rfl

theorem KeyInt_encodeAsset_tileh (tw th : Nat) (P : List Nat) (hth : th < 2147483648) :
    KeyInt (encodeAsset tw th P) key_tileh = Result.ok (th : Int) := by
  have hpre : ∀ c ∈ 105 :: 108 :: 101 :: 119 :: 32 :: (decimal tw ++ [10]), c ≠ 116 ∧ c ≠ 0 := by
    intro c hc
    simp only [List.mem_cons, List.mem_append, List.mem_singleton, List.not_mem_nil,
      or_false] at hc
    rcases hc with hc | hc | hc | hc | hc | hc | hc
    · omega
    · omega
    · omega
    · omega
    · omega
    · have := decimal_digits tw c hc
      omega
    · omega
  have h1 := strstr_skip 116 [105, 108, 101, 104]
    ([116, 105, 108, 101, 104] ++ 32 :: (decimal th ++ 10 :: (dataMarker.take 4 ++ P))) 0
    (strstr_here 116 [105, 108, 101, 104] _) _ hpre
  have h2 := strstr_tileh_step _ _ h1
  have e : encodeAsset tw th P =
      116 :: 105 :: 108 :: 101 :: 119 :: ((32 :: (decimal tw ++ [10])) ++
        ([116, 105, 108, 101, 104] ++ 32 :: (decimal th ++ 10 :: (dataMarker.take 4 ++ P)))) := by
    simp [encodeAsset, key_tilew, key_tileh]
  apply KeyInt_value (encodeAsset tw th P) key_tileh _ th (dataMarker.take 4 ++ P) hth
  · rw [e]
    exact h2
  · have e2 : encodeAsset tw th P =
        (116 :: 105 :: 108 :: 101 :: 119 :: 32 :: (decimal tw ++ [10]) ++ key_tileh) ++
          32 :: (decimal th ++ 10 :: (dataMarker.take 4 ++ P)) := by
      simp [encodeAsset, key_tilew, key_tileh]
    rw [e2]
    apply List.drop_left'
    simp [key_tileh]

theorem headerBytes_no_d (tw th : Nat) : ∀ c ∈ headerBytes tw th, c ≠ 100 := by
  intro c hc
  simp only [headerBytes, key_tilew, key_tileh, List.mem_cons, List.mem_append,
    List.mem_singleton, List.not_mem_nil, or_false] at hc
  rcases hc with (hc | hc | hc | hc | hc) | hc | hc | hc | (hc | hc | hc | hc | hc) | hc | hc | hc
  all_goals first
    | omega
    | (have h9 := decimal_digits tw c hc; omega)
    | (have h9 := decimal_digits th c hc; omega)

theorem findData_encodeAsset (tw th : Nat) (P : List Nat) :
    findData (encodeAsset tw th P) 0 = Result.ok (headerBytes tw th).length := by
  rw [encodeAsset_eq, findData_skip _ _ _ (headerBytes_no_d tw th), findData_here]
  simp

theorem encodeAsset_length (tw th : Nat) (P : List Nat) :
    (encodeAsset tw th P).length = (headerBytes tw th).length + 4 + P.length := by
  rw [encodeAsset_eq]
  simp only [List.length_append, dataMarker, List.take, List.length_cons, List.length_nil]
  omega

theorem tile_count_le_block (tw th : Nat) (hth : 0 < th) : tw ≤ (tw * 16) * (th * 16) * 4 := by
  have e : (tw * 16) * (th * 16) * 4 = tw * (th * 1024) := by ring
  rw [e]
  exact Nat.le_mul_of_pos_right tw (by omega)

/-- C3. For every pair of positive `tw`, `th` and every pixel block `P` of
`(tw*16)*(th*16)*4` bytes, the asset made of the header
`tilew <tw>\ntileh <th>\n`, the marker `data` and `P` being a file that
`ReadFile` can hand over (its size fits the `int numbytes`): `LoadTileset`
returns with `tilew = tw`, `tileh = th` and a pixel block as long as `P` whose
row `r` is row `th*16 - 1 - r` of `P`. -/
theorem LoadTileset_encodeAsset (tw th : Nat) (P : List Nat)
    (htw : 0 < tw) (hth : 0 < th)
    (hP : P.length = (tw * 16) * (th * 16) * 4)
    (hsize : (encodeAsset tw th P).length < 2147483648) :
    ∃ ts, LoadTileset (encodeAsset tw th P) = Result.ok ts ∧
      ts.tilew = tw ∧ ts.tileh = th ∧ ts.pixels.length = P.length ∧
      (∀ r c j, r < th * 16 → c < tw * 16 → j < 4 →
        ts.pixels[(r * (tw * 16) + c) * 4 + j]? =
          P[((th * 16 - 1 - r) * (tw * 16) + c) * 4 + j]?) := by
  have hlen := encodeAsset_length tw th P
  have h1 := tile_count_le_block tw th hth
  have h2 : th ≤ (tw * 16) * (th * 16) * 4 := by
    have h3 := tile_count_le_block th tw htw
    have e : (th * 16) * (tw * 16) * 4 = (tw * 16) * (th * 16) * 4 := by ring
    rw [e] at h3
    exact h3
  have htw2 : tw < 2147483648 := by omega
  have hth2 : th < 2147483648 := by omega
  obtain ⟨out, hout, hl, hr, _⟩ := FlipRasterOrder_rows (tw * 16) (th * 16) P (by omega)
  have e1 : ((tw : Int) * 16) = ((tw * 16 : Nat) : Int) := by push_cast; rfl
  have e2 : ((th : Int) * 16) = ((th * 16 : Nat) : Int) := by push_cast; rfl
  have hne : (headerBytes tw th).length ≠ (encodeAsset tw th P).length := by omega
  have hdrop : (encodeAsset tw th P).drop ((headerBytes tw th).length + 4) = P := by
    have e3 : encodeAsset tw th P = (headerBytes tw th ++ dataMarker.take 4) ++ P := by
      rw [encodeAsset_eq, List.append_assoc]
    rw [e3]
    apply List.drop_left'
    simp [dataMarker]
  refine ⟨⟨tw, th, (tw : Int) * 16, (th : Int) * 16, out⟩, ?_, rfl, rfl, hl, hr⟩
  simp only [LoadTileset, KeyInt_encodeAsset_tilew tw th P htw2,
    KeyInt_encodeAsset_tileh tw th P hth2,
    findData_encodeAsset, Result.ok_bind, if_neg hne, hdrop, TILE_SIZE, e1, e2, hout]

/-- Witness of C3: `tw = th = 8` with a solid 128 by 128 RGBA block, a file of
65556 bytes, gives 8, 8 and 65536 bytes. -/
theorem LoadTileset_encodeAsset_witness :
    (List.replicate 65536 255).length = (8 * 16) * (8 * 16) * 4 ∧
    (encodeAsset 8 8 (List.replicate 65536 255)).length = 65556 ∧
    ∃ ts, LoadTileset (encodeAsset 8 8 (List.replicate 65536 255)) = Result.ok ts ∧
      ts.tilew = 8 ∧ ts.tileh = 8 ∧ ts.pixels.length = 65536 := by
  have hlen : (List.replicate 65536 255).length = (8 * 16) * (8 * 16) * 4 :=
    List.length_replicate 65536 255
  have hhdr : (headerBytes 8 8).length = 16 := by decide
  have hsize : (encodeAsset 8 8 (List.replicate 65536 255)).length = 65556 := by
    rw [encodeAsset_length, hhdr, List.length_replicate]
  obtain ⟨ts, h1, h2, h3, h4, _⟩ :=
    LoadTileset_encodeAsset 8 8 (List.replicate 65536 255) (by decide) (by decide) hlen
      (by rw [hsize]; decide)
  exact ⟨hlen, hsize, ts, h1, h2, h3, h4.trans (List.length_replicate 65536 255)⟩

/-- The model of `atoi` on a numeral beyond an `int`: `tilew 4294967297` is
read as 1, the low 32 bits. -/
theorem KeyInt_eval_beyond_int :
    KeyInt (ascii "tilew 4294967297\ntileh 0\ndata") key_tilew = Result.ok 1 := by decide

/-! ## What `LoadTileset` checks, and what it does not -/

theorem Result.bind_ne_error {α β : Type} (x : Result α) (f : α → Result β)
    (hx : ∀ e, x ≠ Result.error e) (hf : ∀ a e, f a ≠ Result.error e) :
    ∀ e, (x >>= f) ≠ Result.error e := by
  intro e
  cases x with
  | ok a => exact hf a e
  | error e1 => exact absurd rfl (hx e1)
  | undefined => intro h; cases h

theorem load_ne_error {α : Type} (mem : List α) (a : Int) : ∀ e, load mem a ≠ Result.error e := by
  intro e
  cases a with
  | ofNat n =>
    simp only [load]
    cases mem[n]? <;> intro h <;> cases h
  | negSucc n => intro h; cases h

theorem store_ne_error {α : Type} (mem : List α) (a : Int) (v : α) :
    ∀ e, store mem a v ≠ Result.error e := by
  intro e
  cases a with
  | ofNat n =>
    simp only [store]
    split_ifs <;> intro h <;> cases h
  | negSucc n => intro h; cases h

theorem swapComponents_ne_error (addra addrb : Int) : ∀ (n : Nat) (j : Int) (pixels : List Nat),
    ∀ e, swapComponents addra addrb n j pixels ≠ Result.error e := by
  intro n
  induction n with
  | zero => intro j pixels e h; cases h
  | succ n ih =>
    intro j pixels
    simp only [swapComponents]
    refine Result.bind_ne_error _ _ (load_ne_error _ _) (fun temp => ?_)
    refine Result.bind_ne_error _ _ (load_ne_error _ _) (fun b => ?_)
    refine Result.bind_ne_error _ _ (store_ne_error _ _ _) (fun p1 => ?_)
    refine Result.bind_ne_error _ _ (store_ne_error _ _ _) (fun p2 => ?_)
    exact ih _ _

theorem swapLine_ne_error (imagew start end_ : Int) : ∀ (n : Nat) (i : Int) (pixels : List Nat),
    ∀ e, swapLine imagew start end_ n i pixels ≠ Result.error e := by
  intro n
  induction n with
  | zero => intro i pixels e h; cases h
  | succ n ih =>
    intro i pixels
    simp only [swapLine]
    exact Result.bind_ne_error _ _ (swapComponents_ne_error _ _ _ _ _) (fun p1 => ih _ _)

theorem flipLoop_ne_error (imagew : Int) : ∀ (fuel : Nat) (start end_ : Int) (pixels : List Nat),
    ∀ e, flipLoop imagew fuel start end_ pixels ≠ Result.error e := by
  intro fuel
  induction fuel with
  | zero => intro s e' pixels e h; cases h
  | succ fuel ih =>
    intro s e' pixels
    simp only [flipLoop]
    split_ifs
    · exact Result.bind_ne_error _ _ (swapLine_ne_error _ _ _ _ _ _) (fun p1 => ih _ _ _)
    · intro e h; cases h

theorem FlipRasterOrder_ne_error (imagew imageh : Int) (pixels : List Nat) :
    ∀ e, FlipRasterOrder imagew imageh pixels ≠ Result.error e :=
  flipLoop_ne_error _ _ _ _ _

/-- C4, counterexample. The asset `shortAsset` has both keys and the marker,
and 8 bytes after the marker where `(1*16)*(1*16)*4 = 1024` are needed; yet
`LoadTileset` raises no error: it goes on to `FlipRasterOrder`, which leaves
the buffer. -/
theorem LoadTileset_shortAsset :
    KeyInt shortAsset key_tilew = Result.ok 1 ∧ KeyInt shortAsset key_tileh = Result.ok 1 ∧
    findData shortAsset 0 = Result.ok 16 ∧ (shortAsset.drop (16 + 4)).length = 8 ∧
    (8 : Int) < (1 * 16) * (1 * 16) * 4 ∧
    FlipRasterOrder (1 * 16) (1 * 16) (shortAsset.drop (16 + 4)) = Result.undefined ∧
    LoadTileset shortAsset = Result.undefined ∧
    ¬ ∃ e, LoadTileset shortAsset = Result.error e := by
  have hU : LoadTileset shortAsset = Result.undefined := by decide
  refine ⟨by decide, by decide, by decide, by decide, by decide, by decide, hU, ?_⟩
  rintro ⟨e, h⟩
  rw [hU] at h
  cases h

/-- C4, amended. When `KeyInt` finds both keys and the scan stops at a `data`
marker inside the buffer, `LoadTileset` hands the bytes after the marker to
`FlipRasterOrder(tilew*16, tileh*16, .)` without looking at how many there
are, and it ends in no call of `Error`, however few bytes remain. -/
theorem LoadTileset_no_length_check (buffer : List Nat) (tw th : Int) (off : Nat)
    (htw : KeyInt buffer key_tilew = Result.ok tw) (hth : KeyInt buffer key_tileh = Result.ok th)
    (hoff : findData buffer 0 = Result.ok off) (hfound : off ≠ buffer.length) :
    LoadTileset buffer =
      (FlipRasterOrder (tw * 16) (th * 16) (buffer.drop (off + 4)) >>= fun pixels =>
        Result.ok ⟨tw, th, tw * 16, th * 16, pixels⟩) ∧
    ∀ e, LoadTileset buffer ≠ Result.error e := by
  have h : LoadTileset buffer =
      (FlipRasterOrder (tw * 16) (th * 16) (buffer.drop (off + 4)) >>= fun pixels =>
        Result.ok ⟨tw, th, tw * 16, th * 16, pixels⟩) := by
    simp only [LoadTileset, htw, hth, hoff, Result.ok_bind, if_neg hfound, TILE_SIZE]
  refine ⟨h, ?_⟩
  rw [h]
  exact Result.bind_ne_error _ _ (FlipRasterOrder_ne_error _ _ _) (fun a e h => by cases h)

/-- Witness of C4, amended: the asset `shortAsset`. -/
theorem LoadTileset_no_length_check_witness :
    LoadTileset shortAsset =
      (FlipRasterOrder (1 * 16) (1 * 16) (shortAsset.drop (16 + 4)) >>= fun pixels =>
        Result.ok ⟨1, 1, 1 * 16, 1 * 16, pixels⟩) ∧
    ∀ e, LoadTileset shortAsset ≠ Result.error e :=
  LoadTileset_no_length_check shortAsset 1 1 16 (by decide) (by decide) (by decide) (by decide)

/-- C5, failing inputs. A buffer that ends in `dat`: the scan compares the
marker with the byte after the buffer instead of raising the error. Buffers
without a NUL byte that lack `tilew`, or lack `tileh`: `strstr` scans beyond
the buffer instead of `KeyInt` raising the error. -/
theorem LoadTileset_reads_past_end :
    findData (ascii "tilew 1\ntileh 1\ndat") 0 = Result.undefined ∧
    LoadTileset (ascii "tilew 1\ntileh 1\ndat") = Result.undefined ∧
    LoadTileset (ascii "tileh 1\ndata") = Result.undefined ∧
    LoadTileset (ascii "tilew 1\ndata") = Result.undefined := by
  decide

/-! ## Map store -/

/-- C8. For every grid of 1024 entries, active layer `L` in 0..3, pixel
position `(px, py)` with `px, py < 512` and selected tile `t`: `PlaceClick`
returns, the read `GetTileIndex(L, (py/32)*16 + px/32)` then returns `t`, each
of the other 1023 entries of `layoutdata` is as before, and layer and selected
tile are as before. -/
theorem PlaceClick_writes_one_cell (grid : List Int) (L px py : Nat) (t : Int)
    (hgrid : grid.length = 1024) (hL : L ≤ 3) (hpx : px < 512) (hpy : py < 512) :
    ∃ grid', PlaceClick ⟨grid, L, t⟩ px py = Result.ok ⟨grid', L, t⟩ ∧
      grid'.length = 1024 ∧
      GetTileIndex ⟨grid', L, t⟩ L (((py / 32) * 16 + px / 32 : Nat) : Int) = Result.ok t ∧
      ∀ i, i < 1024 → i ≠ L * 256 + (py / 32) * 16 + px / 32 → grid'[i]? = grid[i]? := by
  have hx : Int.tdiv (px : Int) 32 = ((px / 32 : Nat) : Int) := by
    rw [Int.tdiv_eq_ediv (by omega) (by omega)]; omega
  have hy : Int.tdiv (py : Int) 32 = ((py / 32 : Nat) : Int) := by
    rw [Int.tdiv_eq_ediv (by omega) (by omega)]; omega
  have hidx : ((L : Int) * 16 * 16) + (((py / 32 : Nat) : Int) * 16) + ((px / 32 : Nat) : Int) =
      ((L * 256 + (py / 32) * 16 + px / 32 : Nat) : Int) := by
    push_cast; ring
  have hidx2 : ((L : Int) * 16 * 16) + (((py / 32) * 16 + px / 32 : Nat) : Int) =
      ((L * 256 + (py / 32) * 16 + px / 32 : Nat) : Int) := by
    push_cast; ring
  have hlt : L * 256 + (py / 32) * 16 + px / 32 < grid.length := by omega
  refine ⟨grid.set (L * 256 + (py / 32) * 16 + px / 32) t, ?_, ?_, ?_, ?_⟩
  · simp only [PlaceClick, GetSelectedTile, hx, hy, hidx, store_natCast t hlt, Result.ok_bind]
  · simp only [List.length_set, hgrid]
  · simp only [GetTileIndex, hidx2]
    exact load_natCast (List.getElem?_set_self hlt)
  · intro i _ hne
    exact List.getElem?_set_ne (Ne.symm hne)

/-- Witness of C8: on the zero grid, layer 0, the pixel (96, 160) of tile cell
x = 3, y = 5 and tile 12: the read gives 12, every other entry is 0. -/
theorem PlaceClick_writes_one_cell_witness :
    ∃ grid', PlaceClick ⟨zeroGrid, ((0 : Nat) : Int), 12⟩ ((96 : Nat) : Int) ((160 : Nat) : Int) =
        Result.ok ⟨grid', ((0 : Nat) : Int), 12⟩ ∧
      GetTileIndex ⟨grid', ((0 : Nat) : Int), 12⟩ ((0 : Nat) : Int) ((5 * 16 + 3 : Nat) : Int) =
        Result.ok 12 ∧
      ∀ i, i < 1024 → i ≠ 5 * 16 + 3 → grid'[i]? = some 0 := by
  obtain ⟨grid', h1, _, h3, h4⟩ := PlaceClick_writes_one_cell zeroGrid 0 96 160 12
    (List.length_replicate 1024 0) (by decide) (by decide) (by decide)
  refine ⟨grid', h1, h3, fun i hi hne => ?_⟩
  rw [h4 i hi (by omega)]
  simp only [zeroGrid]
  rw [List.getElem?_replicate, if_pos hi]

theorem intBytes_bytesInt (v : Int) (h1 : -2147483648 ≤ v) (h2 : v < 2147483648) :
    intsOfBytes (intBytes v) = [v] := by
  simp only [intBytes, intsOfBytes, bytesInt]
  split_ifs <;> simp <;> omega

theorem objectBytes_length (a : List Int) : (objectBytes a).length = 4 * a.length := by
  induction a with
  | nil => rfl
  | cons v vs ih =>
    simp only [objectBytes, List.flatMap_cons, List.length_append, List.length_cons] at ih ⊢
    rw [ih]
    simp only [intBytes, List.length_cons, List.length_nil]
    omega

theorem WriteMapData_undefined (disk : Disk) (grid : List Int) (L t : Int)
    (hw : disk.writable "maptiles.bin" = true) (hlen : grid.length = 1024) :
    WriteMapData disk ⟨grid, L, t⟩ = Result.undefined := by
  simp only [WriteMapData, WriteFile, hw, if_true, objectBytes_length, hlen,
    WriteMapData_numbytes, sizeofInt, sizeofLayoutdata]
  rfl

/-- C7, failing input. `WriteMapData` passes `sizeof(int) * sizeof(layoutdata)`,
16384, where the array has `1024 * sizeof(int)`, 4096, bytes: on the zero grid
(as on every grid) `fwrite` is sent 12288 bytes beyond `layoutdata`. -/
theorem WriteMapData_byte_count :
    WriteMapData_numbytes = 16384 ∧ 1024 * sizeofInt = 4096 ∧
    (objectBytes zeroGrid).length = 4096 ∧
    WriteMapData emptyDisk ⟨zeroGrid, 0, 0⟩ = Result.undefined := by
  refine ⟨rfl, rfl, ?_, WriteMapData_undefined _ _ _ _ rfl (List.length_replicate 1024 0)⟩
  rw [objectBytes_length, zeroGrid, List.length_replicate]

theorem WriteFileBeyond_within (disk : Disk) (filename : String) (data beyond : List Nat)
    (numbytes : Nat) (h : numbytes ≤ data.length) :
    WriteFileBeyond disk filename data beyond numbytes = WriteFile disk filename data numbytes := by
  simp only [WriteFileBeyond, WriteFile, if_pos h, List.take_append_of_le_length h]

theorem bytesInt_intBytes (v : Int) (h1 : -2147483648 ≤ v) (h2 : v < 2147483648) :
    bytesInt ((v % 4294967296).toNat % 256) ((v % 4294967296).toNat / 256 % 256)
      ((v % 4294967296).toNat / 65536 % 256) ((v % 4294967296).toNat / 16777216 % 256) = v := by
  simp only [bytesInt]
  split_ifs <;> omega

theorem intsOfBytes_objectBytes (grid : List Int)
    (hint : ∀ v ∈ grid, -2147483648 ≤ v ∧ v < 2147483648) :
    intsOfBytes (objectBytes grid) = grid := by
  induction grid with
  | nil => rfl
  | cons v vs ih =>
    have hv := hint v (List.mem_cons_self _ _)
    have ih1 := ih (fun x hx => hint x (List.mem_cons_of_mem _ hx))
    simp only [objectBytes, List.flatMap_cons] at ih1 ⊢
    simp only [intBytes, List.cons_append, List.nil_append, intsOfBytes, List.append_eq]
    rw [bytesInt_intBytes v hv.1 hv.2, ih1]

/-- C6. For every grid of 1024 `int` values in `layoutdata`, where the file
can be created: `WriteMapData` writes a file (the array first, then whatever
`fwrite` reads behind it), and `ReadMapData` on that file leaves `layoutdata`
equal to the saved grid, entry for entry, whatever the editor `ed` held at the
load. -/
theorem WriteMapData_ReadMapData (disk : Disk) (grid : List Int) (L t : Int)
    (beyond : List Nat) (ed : Editor)
    (hgrid : grid.length = 1024)
    (hint : ∀ v ∈ grid, -2147483648 ≤ v ∧ v < 2147483648)
    (hw : disk.writable "maptiles.bin" = true) :
    ∃ disk', WriteMapDataBeyond disk ⟨grid, L, t⟩ beyond = Result.ok disk' ∧
      ReadMapData disk' ed = Result.ok { ed with layoutdata := grid } := by
  have hob : (objectBytes grid).length = 4096 := by
    rw [objectBytes_length, hgrid]
  refine ⟨{ disk with
    content := fun f =>
      if f = "maptiles.bin" then some ((objectBytes grid ++ beyond).take WriteMapData_numbytes)
      else disk.content f }, ?_, ?_⟩
  · simp only [WriteMapDataBeyond, WriteFileBeyond, hw, if_true]
  · have hlen : sizeofLayoutdata ≤
        ((objectBytes grid ++ beyond).take WriteMapData_numbytes).length := by
      simp only [List.length_take, List.length_append, hob, sizeofLayoutdata, sizeofInt,
        WriteMapData_numbytes]
      omega
    have htake : ((objectBytes grid ++ beyond).take WriteMapData_numbytes).take sizeofLayoutdata =
        objectBytes grid := by
      rw [List.take_take]
      have e : min sizeofLayoutdata WriteMapData_numbytes = 4096 := by decide
      rw [e]
      exact List.take_left' hob
    simp only [ReadMapData, ReadFile, if_true, Result.ok_bind, if_pos hlen, htake,
      intsOfBytes_objectBytes grid hint]

/-- Witness of C6: the grid of the entries -512..511 saved from the editor
with a short over-read of three bytes, and loaded over the zero grid. -/
theorem WriteMapData_ReadMapData_witness :
    rampGrid.length = 1024 ∧
    ∃ disk', WriteMapDataBeyond emptyDisk ⟨rampGrid, 0, 0⟩ [7, 7, 7] = Result.ok disk' ∧
      ReadMapData disk' ⟨zeroGrid, 2, 5⟩ = Result.ok ⟨rampGrid, 2, 5⟩ := by
  have hlen : rampGrid.length = 1024 := by
    rw [rampGrid, List.length_map, List.length_range]
  have hint : ∀ v ∈ rampGrid, -2147483648 ≤ v ∧ v < 2147483648 := by
    intro v hv
    simp only [rampGrid, List.mem_map, List.mem_range] at hv
    obtain ⟨i, hi, rfl⟩ := hv
    omega
  exact ⟨hlen, WriteMapData_ReadMapData emptyDisk rampGrid 0 0 [7, 7, 7] ⟨zeroGrid, 2, 5⟩
    hlen hint rfl⟩

/-! ## Mouse events -/

theorem afterChangeLayers_currentlayer (n : Nat) :
    (afterChangeLayers n).currentlayer = ((n % 4 : Nat) : Int) ∧
    (afterChangeLayers n).layoutdata = zeroGrid ∧ (afterChangeLayers n).selectedtile = 0 := by
  induction n with
  | zero => exact ⟨rfl, rfl, rfl⟩
  | succ n ih =>
    obtain ⟨h1, h2, h3⟩ := ih
    refine ⟨?_, h2, h3⟩
    show Int.tmod ((afterChangeLayers n).currentlayer + 1) 4 = _
    rw [h1, Int.tmod_eq_emod (by omega) (by omega)]
    omega

theorem MouseMotionFunc_eq_store (ed : Editor) (x y : Int) :
    MouseMotionFunc ed x y =
      (store ed.layoutdata (clickIndex ed.currentlayer x y) ed.selectedtile >>= fun g =>
        Result.ok { ed with layoutdata := g }) := rfl

theorem MouseFunc_eq_MouseMotionFunc (ed : Editor) (x y : Int) :
    MouseFunc ed GLUT_LEFT_BUTTON GLUT_UP x y = MouseMotionFunc ed x y := by
  simp only [MouseFunc, MouseMotionFunc, and_self, if_true]

theorem clickIndex_natCast (L x y : Nat) (hy : y ≤ 512) :
    clickIndex L x y = ((L * 256 + (512 - y) / 32 * 16 + x / 32 : Nat) : Int) := by
  have e1 : (512 : Int) - (y : Int) = ((512 - y : Nat) : Int) := by omega
  simp only [clickIndex, e1]
  rw [Int.tdiv_eq_ediv (by omega) (by omega), Int.tdiv_eq_ediv (by omega) (by omega)]
  omega

theorem clickIndex_below_top (L x y : Nat) (hL : L ≤ 3) (hx : x < 512) (hy0 : 0 < y)
    (hy : y < 512) :
    (L : Int) * 256 ≤ clickIndex L x y ∧ clickIndex L x y ≤ (L : Int) * 256 + 255 ∧
    0 ≤ clickIndex L x y ∧ clickIndex L x y ≤ 1023 := by
  rw [clickIndex_natCast L x y (by omega)]
  omega

theorem clickIndex_top_row (L x : Nat) :
    clickIndex L x 0 = (L : Int) * 256 + 256 + ((x / 32 : Nat) : Int) := by
  have h := clickIndex_natCast L x 0 (by omega)
  rw [Nat.cast_zero] at h
  rw [h]
  omega

theorem store_zeroGrid_outside (i : Nat) (hi : 1024 ≤ i) (t : Int) :
    store zeroGrid (i : Int) t = Result.undefined := by
  show store zeroGrid (Int.ofNat i) t = _
  simp only [store, zeroGrid, List.length_replicate]
  rw [if_neg (by omega)]

/-- C11, failing input. After three calls of `ChangeLayer` the active layer
is 3; a button-up or a drag at the window coordinates `(0, 0)`, the top row of
the window, makes `PlaceClick` write index `3*256 + (512/32)*16 + 0 = 1024`,
outside `layoutdata`. On layer 0 the same event writes index 256, a cell of
layer 1. -/
theorem MouseFunc_top_row_outside :
    afterChangeLayers 3 = ⟨zeroGrid, 3, 0⟩ ∧
    clickIndex 3 0 0 = 1024 ∧
    MouseFunc (afterChangeLayers 3) GLUT_LEFT_BUTTON GLUT_UP 0 0 = Result.undefined ∧
    MouseMotionFunc (afterChangeLayers 3) 0 0 = Result.undefined ∧
    clickIndex 0 0 0 = 256 := by
  have h3 : afterChangeLayers 3 = ⟨zeroGrid, 3, 0⟩ := rfl
  have hm : MouseMotionFunc (afterChangeLayers 3) 0 0 = Result.undefined := by
    rw [MouseMotionFunc_eq_store, h3]
    have e : clickIndex 3 0 0 = ((1024 : Nat) : Int) := by decide
    show (store zeroGrid (clickIndex 3 0 0) 0 >>= _) = _
    rw [e, store_zeroGrid_outside 1024 (Nat.le_refl _)]
    rfl
  refine ⟨h3, by decide, ?_, hm, by decide⟩
  rw [MouseFunc_eq_MouseMotionFunc]
  exact hm

/-! ## Simulation clock -/

theorem MainLoopFunc_cases (c : SimClock) (t : Nat) (ht : t < 4294967296 - 32) :
    (t = c.realtime ∧ MainLoopFunc c t = c) ∨
    (t ≠ c.realtime ∧ c.simtime < t ∧ MainLoopFunc c t =
      ⟨t, (c.simframe + 1) % 4294967296, ((c.simframe + 1) % 4294967296 * 32) % 4294967296⟩) ∨
    (t ≠ c.realtime ∧ ¬ c.simtime < t ∧ MainLoopFunc c t = ⟨t, c.simframe, c.simtime⟩) := by
  have hmod : t % 4294967296 = t := Nat.mod_eq_of_lt (by omega)
  by_cases h1 : t = c.realtime
  · left
    refine ⟨h1, ?_⟩
    simp only [MainLoopFunc, UINT_RANGE, hmod]
    rw [if_pos h1]
  · right
    by_cases h2 : c.simtime < t
    · left
      refine ⟨h1, h2, ?_⟩
      simp only [MainLoopFunc, UINT_RANGE, hmod, if_neg h1, if_pos h2, SimRunFrame, SIM_TIMESTEP]
    · right
      refine ⟨h1, h2, ?_⟩
      simp only [MainLoopFunc, UINT_RANGE, hmod, if_neg h1, if_neg h2]

theorem MainLoopFunc_inv (c : SimClock) (t : Nat) (hc : ClockInv c) (hle : c.realtime ≤ t)
    (ht : t < 4294967296 - 32) :
    ClockInv (MainLoopFunc c t) ∧ (MainLoopFunc c t).realtime = t ∧
    (((MainLoopFunc c t).simframe = c.simframe ∧ (t = c.realtime ∨ t ≤ c.simtime)) ∨
      ((MainLoopFunc c t).simframe = c.simframe + 1 ∧ c.simtime < t)) := by
  obtain ⟨h1, h2, h3⟩ := hc
  rcases MainLoopFunc_cases c t ht with ⟨ha, hb⟩ | ⟨ha, hb, hd⟩ | ⟨ha, hb, hd⟩
  · rw [hb]
    exact ⟨⟨h1, h2, h3⟩, ha.symm, Or.inl ⟨rfl, Or.inl ha⟩⟩
  · rw [hd]
    have e1 : (c.simframe + 1) % 4294967296 = c.simframe + 1 := Nat.mod_eq_of_lt (by omega)
    rw [e1]
    have e2 : ((c.simframe + 1) * 32) % 4294967296 = (c.simframe + 1) * 32 :=
      Nat.mod_eq_of_lt (by omega)
    rw [e2]
    refine ⟨⟨?_, ?_, ht⟩, rfl, Or.inr ⟨rfl, hb⟩⟩
    · show (c.simframe + 1) * 32 = 32 * (c.simframe + 1)
      omega
    · show (c.simframe + 1) * 32 < t + 32
      omega
  · rw [hd]
    refine ⟨⟨h1, ?_, ht⟩, rfl, Or.inl ⟨rfl, Or.inr (by omega)⟩⟩
    show c.simtime < t + 32
    omega

theorem startup_inv : ClockInv startup := ⟨rfl, by decide, by decide⟩

theorem runTicks_append (c : SimClock) (pre : List Nat) (t : Nat) :
    runTicks c (pre ++ [t]) = MainLoopFunc (runTicks c pre) t := by
  simp only [runTicks, List.foldl_append, List.foldl_cons, List.foldl_nil]

theorem runTicks_inv : ∀ (samples : List Nat) (c : SimClock), ClockInv c →
    samples.Pairwise (· ≤ ·) → (∀ s ∈ samples, c.realtime ≤ s ∧ s < 4294967296 - 32) →
    ClockInv (runTicks c samples) ∧
      (runTicks c samples).realtime = samples.getLastD c.realtime := by
  intro samples
  induction samples with
  | nil => intro c hc _ _; exact ⟨hc, rfl⟩
  | cons t ts ih =>
    intro c hc hp hs
    obtain ⟨hp1, hp2⟩ := List.pairwise_cons.mp hp
    have ht := hs t (List.mem_cons_self _ _)
    obtain ⟨hi, hr, _⟩ := MainLoopFunc_inv c t hc ht.1 ht.2
    obtain ⟨h1, h2⟩ := ih (MainLoopFunc c t) hi hp2 (fun s hsm => by
      rw [hr]
      exact ⟨hp1 s hsm, (hs s (List.mem_cons_of_mem _ hsm)).2⟩)
    refine ⟨h1, ?_⟩
    show (runTicks (MainLoopFunc c t) ts).realtime = _
    rw [h2, hr]
    cases ts <;> rfl

theorem runTicks_last_tick (pre : List Nat) (t : Nat)
    (hsorted : (pre ++ [t]).Pairwise (· ≤ ·))
    (hbound : ∀ s ∈ pre ++ [t], s < 4294967296 - 32) :
    runTicks startup (pre ++ [t]) = MainLoopFunc (runTicks startup pre) t ∧
    (runTicks startup (pre ++ [t])).simtime ≤ (runTicks startup (pre ++ [t])).realtime + 32 ∧
    (runTicks startup (pre ++ [t])).simtime = 32 * (runTicks startup (pre ++ [t])).simframe ∧
    (runTicks startup (pre ++ [t])).realtime = t ∧
    ((runTicks startup (pre ++ [t])).simframe = (runTicks startup pre).simframe ∨
      ((runTicks startup (pre ++ [t])).simframe = (runTicks startup pre).simframe + 1 ∧
        (runTicks startup pre).simtime < (runTicks startup (pre ++ [t])).realtime)) := by
  obtain ⟨hp1, _, hp3⟩ := List.pairwise_append.mp hsorted
  have hpre := runTicks_inv pre startup startup_inv hp1 (fun s hs =>
    ⟨Nat.zero_le _, hbound s (List.mem_append_left _ hs)⟩)
  have hle : (runTicks startup pre).realtime ≤ t := by
    rw [hpre.2]
    rcases List.mem_cons.mp (List.getLastD_mem_cons pre startup.realtime) with h | h
    · rw [h]
      exact Nat.zero_le _
    · exact hp3 _ h t (List.mem_singleton_self t)
  obtain ⟨⟨h1, h2, _⟩, hr, hstep⟩ := MainLoopFunc_inv (runTicks startup pre) t hpre.1 hle
    (hbound t (List.mem_append_right _ (List.mem_singleton_self t)))
  rw [runTicks_append]
  refine ⟨rfl, by omega, h1, hr, ?_⟩
  rw [hr]
  rcases hstep with h | h
  · exact Or.inl h.1
  · exact Or.inr h

/-- C10. For every non-decreasing sequence of samples below `2^32 - 32` fed
to `MainLoopFunc` from the zero-initialised clock, and every tick `k` of it:
after the tick `simtime <= realtime + 32` and `simtime = 32 * simframe`, and
the tick either leaves `simframe` as it was or adds 1 to it, the latter only
when `simtime` before the tick was below the newly sampled `realtime`. -/
theorem MainLoopFunc_fixed_timestep (samples : List Nat)
    (hsorted : samples.Pairwise (· ≤ ·)) (hbound : ∀ s ∈ samples, s < 4294967296 - 32)
    (k : Nat) (hk : k < samples.length) :
    runTicks startup (samples.take (k + 1)) =
      MainLoopFunc (runTicks startup (samples.take k)) samples[k] ∧
    (runTicks startup (samples.take (k + 1))).simtime ≤
      (runTicks startup (samples.take (k + 1))).realtime + 32 ∧
    (runTicks startup (samples.take (k + 1))).simtime =
      32 * (runTicks startup (samples.take (k + 1))).simframe ∧
    (runTicks startup (samples.take (k + 1))).realtime = samples[k] ∧
    ((runTicks startup (samples.take (k + 1))).simframe =
        (runTicks startup (samples.take k)).simframe ∨
      ((runTicks startup (samples.take (k + 1))).simframe =
          (runTicks startup (samples.take k)).simframe + 1 ∧
        (runTicks startup (samples.take k)).simtime <
          (runTicks startup (samples.take (k + 1))).realtime)) := by
  have e : samples.take (k + 1) = samples.take k ++ [samples[k]] := by
    rw [List.take_succ, List.getElem?_eq_getElem hk]
    rfl
  have hs : (samples.take k ++ [samples[k]]).Pairwise (· ≤ ·) := by
    rw [← e]
    exact hsorted.sublist (List.take_sublist _ _)
  have hb : ∀ s ∈ samples.take k ++ [samples[k]], s < 4294967296 - 32 := by
    intro s h
    rw [← e] at h
    exact hbound s (List.mem_of_mem_take h)
  rw [e]
  exact runTicks_last_tick (samples.take k) samples[k] hs hb

/-- Witness of C10: the samples 10, 40, 41, 200 and the tick on 200. -/
theorem MainLoopFunc_fixed_timestep_witness :
    runTicks startup [10, 40, 41, 200] = MainLoopFunc (runTicks startup [10, 40, 41]) 200 ∧
    (runTicks startup [10, 40, 41, 200]).simtime ≤
      (runTicks startup [10, 40, 41, 200]).realtime + 32 ∧
    (runTicks startup [10, 40, 41, 200]).simtime =
      32 * (runTicks startup [10, 40, 41, 200]).simframe ∧
    (runTicks startup [10, 40, 41, 200]).realtime = 200 ∧
    ((runTicks startup [10, 40, 41, 200]).simframe = (runTicks startup [10, 40, 41]).simframe ∨
      ((runTicks startup [10, 40, 41, 200]).simframe =
          (runTicks startup [10, 40, 41]).simframe + 1 ∧
        (runTicks startup [10, 40, 41]).simtime <
          (runTicks startup [10, 40, 41, 200]).realtime)) :=
  MainLoopFunc_fixed_timestep [10, 40, 41, 200] (by decide) (by decide) 3 (by decide)

theorem MainLoopFunc_simframe_le (c : SimClock) (t : Nat) :
    (MainLoopFunc c t).simframe ≤ c.simframe + 1 := by
  simp only [MainLoopFunc, SimRunFrame]
  split_ifs
  · omega
  · exact Nat.mod_le _ _
  · show c.simframe ≤ c.simframe + 1
    omega

theorem runTicks_simframe_le : ∀ (samples : List Nat) (c : SimClock),
    (runTicks c samples).simframe ≤ c.simframe + samples.length := by
  intro samples
  induction samples with
  | nil => intro c; exact Nat.le_refl _
  | cons t ts ih =>
    intro c
    have h1 := ih (MainLoopFunc c t)
    have h2 := MainLoopFunc_simframe_le c t
    show (runTicks (MainLoopFunc c t) ts).simframe ≤ c.simframe + (ts.length + 1)
    omega

theorem runTicks_caught_up : ∀ (samples : List Nat) (c : SimClock), ClockInv c →
    c.realtime ≤ c.simtime → closeSamples c.realtime samples →
    (∀ s ∈ samples, s < 4294967296 - 32) →
    ClockInv (runTicks c samples) ∧ (runTicks c samples).realtime ≤ (runTicks c samples).simtime := by
  intro samples
  induction samples with
  | nil => intro c hc hle _ _; exact ⟨hc, hle⟩
  | cons t ts ih =>
    intro c hc hle hclose hb
    obtain ⟨h1, h2, h3⟩ := hclose
    obtain ⟨hi, hr, hstep⟩ := MainLoopFunc_inv c t hc h1 (hb t (List.mem_cons_self _ _))
    have hle2 : (MainLoopFunc c t).realtime ≤ (MainLoopFunc c t).simtime := by
      have hi1 := hi.1
      have hc1 := hc.1
      rw [hr]
      rcases hstep with ⟨ha, hb2⟩ | ⟨ha, _⟩
      · rw [hi1, ha, ← hc1]
        omega
      · rw [hi1, ha]
        omega
    rw [← hr] at h3
    exact ih (MainLoopFunc c t) hi hle2 h3 (fun s hs => hb s (List.mem_cons_of_mem _ hs))

/-- C9, amended. For every non-decreasing sequence of samples below
`2^32 - 32` fed one per idle tick to `MainLoopFunc` from the zero-initialised
clock, `realtime` after the last tick is the last sample, and `simframe` is at
most `floor((realtime + 31) / 32)` and at most the number of ticks; it equals
`floor((realtime + 31) / 32)` when no sample is more than 32 ms after the one
before it (the first: after 0). -/
theorem runTicks_simframe (samples : List Nat)
    (hsorted : samples.Pairwise (· ≤ ·)) (hbound : ∀ s ∈ samples, s < 4294967296 - 32) :
    (runTicks startup samples).realtime = samples.getLastD 0 ∧
    (runTicks startup samples).simframe ≤ ((runTicks startup samples).realtime + 31) / 32 ∧
    (runTicks startup samples).simframe ≤ samples.length ∧
    (closeSamples 0 samples →
      (runTicks startup samples).simframe = ((runTicks startup samples).realtime + 31) / 32) := by
  obtain ⟨⟨h1, h2, _⟩, hr⟩ := runTicks_inv samples startup startup_inv hsorted
    (fun s hs => ⟨Nat.zero_le _, hbound s hs⟩)
  have hn := runTicks_simframe_le samples startup
  refine ⟨hr, by omega, ?_, fun hclose => ?_⟩
  · have e : startup.simframe = 0 := rfl
    omega
  · obtain ⟨_, h5⟩ := runTicks_caught_up samples startup startup_inv (Nat.le_refl _) hclose hbound
    omega

/-- Witness of C9, amended: the samples 10, 40, 41, 70, each at most 32 ms
after the one before: 3 frames in 4 ticks, and `floor((70 + 31) / 32)` is 3. -/
theorem runTicks_simframe_witness :
    closeSamples 0 [10, 40, 41, 70] ∧
    (runTicks startup [10, 40, 41, 70]).realtime = 70 ∧
    (runTicks startup [10, 40, 41, 70]).simframe ≤
      ((runTicks startup [10, 40, 41, 70]).realtime + 31) / 32 ∧
    (runTicks startup [10, 40, 41, 70]).simframe ≤ 4 ∧
    (runTicks startup [10, 40, 41, 70]).simframe =
      ((runTicks startup [10, 40, 41, 70]).realtime + 31) / 32 :=
  have h := runTicks_simframe [10, 40, 41, 70] (by decide) (by decide)
  ⟨by decide, h.1, h.2.1, h.2.2.1, h.2.2.2 (by decide)⟩

/-- C9, counterexample. One tick on the sample 100 runs one frame, where
`floor((100 - 0) / 32)` is 3; one tick on the sample 1 runs one frame, where
`floor((1 - 0) / 32)` is 0. -/
theorem runTicks_not_floor :
    (runTicks startup [100]).realtime = 100 ∧ (runTicks startup [100]).simframe = 1 ∧
    (100 - 0) / 32 = 3 ∧
    (runTicks startup [1]).realtime = 1 ∧ (runTicks startup [1]).simframe = 1 ∧
    (1 - 0) / 32 = 0 := by
  decide

/-! ## The literals, and `LoadTileset` on small assets -/

theorem key_tilew_ascii : key_tilew = ascii "tilew" := by decide

theorem key_tileh_ascii : key_tileh = ascii "tileh" := by decide

theorem dataMarker_ascii : dataMarker = ascii "data" ++ [0] := by decide

theorem encodeAsset_ascii :
    encodeAsset 8 12 [1, 2] = ascii "tilew 8\ntileh 12\ndata" ++ [1, 2] := by decide

theorem LoadTileset_eval_empty_image :
    LoadTileset (ascii "tilew 0\ntileh 0\ndata") = Result.ok ⟨0, 0, 0, 0, []⟩ := by decide

theorem LoadTileset_eval_no_key :
    LoadTileset (ascii "tileh 1\ndata" ++ [0]) = Result.error (Fatal.noKey key_tilew) := by
  decide

theorem LoadTileset_eval_no_data :
    LoadTileset (ascii "tilew 1\ntileh 1\ndxta") = Result.error Fatal.noData := by decide

end Tileed
